import Mathlib

/-!
# Verification of the Cil-core transaction-execution core

Shallow embedding of `src/node/app.js` (`Application`),
`src/structures/witnessGroupDefinition.js` and `src/utils.js`, together with
the collaborator objects they use (`PatchDB`, `UTXO`, `Coins`, `Transaction`,
the `Crypto` facade).  The collaborators are not part of the source tree, so
they are modelled from the specification (§3, §4.1, §4.2, §6); the
`Application` functions themselves are translated statement by statement from
`src/node/app.js`.

Hashes, addresses, public keys and signatures are all byte/hex strings in the
source; they are modelled as `String` here, with byte-equality as `String`
equality.
-/

abbrev Hash := String
abbrev Address := String
abbrev PubKey := String
abbrev Sig := String

/-- Association-list lookup used for every keyed map in the model
(the JS objects/Maps keyed by hex strings or output indices). -/
def alookup {κ β : Type} [DecidableEq κ] : List (κ × β) → κ → Option β
  | [], _ => none
  | (k, b) :: rest, key => if k = key then some b else alookup rest key

/-- Modelled from the spec (§6): the `Crypto` facade consumed by the core.
`getAddress` is applied both to public keys and to transaction hashes in the
source, so it is a function on strings. -/
structure CryptoFacade where
  recoverPubKey : Hash → Sig → PubKey
  getAddress : String → Address

/-- Modelled from the spec (§2, §3): a value object `(amount, receiver_address)`. -/
structure Coins where
  amount : Nat
  receiverAddr : Address
deriving DecidableEq, Repr

def Coins.getAmount (c : Coins) : Nat := c.amount

def Coins.getReceiverAddr (c : Coins) : Address := c.receiverAddr

/-- Modelled from the spec (§3, §4.1): the per-transaction set of unspent
outputs indexed by output position, plus the tombstone set of spent
positions.  `strHash` is the hash of the originating transaction (used in
error messages and as the patch key). -/
structure UTXO where
  strHash : Hash
  outputs : List (Nat × Coins)
  spent : List Nat
deriving DecidableEq, Repr

/-- Modelled from the spec (§4.1, §7): returns the `Coins` at position `i`;
a tombstoned position fails with the `already deleted` message, a position
which never existed fails with the `already spent` message (the wording of
both messages is fixed by the repository's tests). -/
def UTXO.coinsAtIndex (u : UTXO) (i : Nat) : Except String Coins :=
  if i ∈ u.spent then
    .error ("Tx " ++ u.strHash ++ " index " ++ toString i ++ " already deleted!")
  else
    match alookup u.outputs i with
    | some c => .ok c
    | none => .error ("Output #" ++ toString i ++ " of Tx " ++ u.strHash ++ " already spent!")

/-- Modelled from the spec (§4.1): marks position `i` spent; fails if `i` is
already tombstoned. -/
def UTXO.spendCoins (u : UTXO) (i : Nat) : Except String UTXO :=
  if i ∈ u.spent then
    .error ("Tx " ++ u.strHash ++ " index " ++ toString i ++ " already deleted!")
  else
    .ok { u with outputs := u.outputs.filter (fun e => e.1 != i), spent := i :: u.spent }

/-- Modelled from the spec (§4.1): true iff no live outputs remain. -/
def UTXO.isEmpty (u : UTXO) : Bool := u.outputs.isEmpty

inductive TxStatus where
  | statusOk
  | statusFailed
deriving DecidableEq, Repr

/-- Modelled from the spec (§3, §6): execution outcome of one transaction. -/
structure Receipt where
  status : TxStatus
  coinsUsed : Nat
deriving DecidableEq, Repr

/-- Modelled from the spec (§3): a persisted contract: opaque data snapshot
and the source text of its exported methods. -/
structure Contract where
  data : List (String × String)
  code : String
deriving DecidableEq, Repr

/-- Modelled from the spec (§4.2): the copy-on-write overlay for one block:
UTXO mutations, contracts and receipts. -/
structure PatchDB where
  mapUtxos : List (Hash × UTXO)
  contracts : List (Address × Contract)
  receipts : List (Hash × Receipt)
deriving DecidableEq, Repr

def PatchDB.empty : PatchDB := ⟨[], [], []⟩

/-- Modelled from the spec (§4.2): overlay lookup. -/
def PatchDB.getUtxo (p : PatchDB) (h : Hash) : Option UTXO := alookup p.mapUtxos h

def PatchDB.setUtxo (p : PatchDB) (h : Hash) (u : UTXO) : PatchDB :=
  { p with mapUtxos := (h, u) :: p.mapUtxos }

/-- Modelled from the spec (§4.2): lazily clones the given UTXO into the
patch on first write, then tombstones position `i` in it.  The spending tx
hash is retained only for reverse-indexing and has no observable effect. -/
def PatchDB.spendCoins (p : PatchDB) (utxo : UTXO) (i : Nat) (_strTxHashSpender : Hash) :
    Except String PatchDB :=
  match ((p.getUtxo utxo.strHash).getD utxo).spendCoins i with
  | .ok u2 => .ok (p.setUtxo utxo.strHash u2)
  | .error e => .error e

/-- Modelled from the spec (§4.2): inserts a new output; fails if the
`(tx_hash, index)` pair already exists as a live output in this patch. -/
def PatchDB.createCoins (p : PatchDB) (h : Hash) (i : Nat) (c : Coins) : Except String PatchDB :=
  if (alookup ((p.getUtxo h).getD ⟨h, [], []⟩).outputs i).isSome then
    .error ("Output #" ++ toString i ++ " of Tx " ++ h ++ " already exists")
  else
    .ok (p.setUtxo h
      { (p.getUtxo h).getD ⟨h, [], []⟩ with
        outputs := (i, c) :: ((p.getUtxo h).getD ⟨h, [], []⟩).outputs })

/-- Modelled from the spec (§4.2): records a newly deployed or updated
contract. -/
def PatchDB.setContract (p : PatchDB) (addr : Address) (data : List (String × String))
    (code : String) : PatchDB :=
  { p with contracts := (addr, ⟨data, code⟩) :: p.contracts }

def PatchDB.getContract (p : PatchDB) (addr : Address) : Option Contract :=
  alookup p.contracts addr

/-- Modelled from the spec (§3): one transaction input referencing a UTXO. -/
structure TxInput where
  txHash : Hash
  nTxOutput : Nat
deriving DecidableEq, Repr

/-- Modelled from the spec (§3, §6): the transaction facade consumed by
`Application`: content hash, inputs, per-input claim proofs, output coins and
optional contract code. -/
structure Transaction where
  strHash : Hash
  inputs : List TxInput
  claimProofs : List Sig
  outCoins : List Coins
  code : String
deriving DecidableEq, Repr

def Transaction.hash (tx : Transaction) : Hash := tx.strHash

/-- Embeds `tx.hash(i)`: per the source comment ("now it's equals txHash") and spec
§4.3a the indexed hash equals the plain hash. -/
def Transaction.hashAt (tx : Transaction) (_i : Nat) : Hash := tx.strHash

def Transaction.getOutCoins (tx : Transaction) : List Coins := tx.outCoins

def Transaction.getCode (tx : Transaction) : String := tx.code

abbrev UtxoMap := List (Hash × UTXO)

namespace Application

/-- Source `src/node/app.js:137-142` (`Application._verifyPayToAddr`): recover the
public key from the signed data and signature, derive its address, and
require equality with the given receiver address. -/
def verifyPayToAddr (C : CryptoFacade) (address : Address) (signature : Sig)
    (buffSignedData : Hash) : Except String Unit :=
  if address = C.getAddress (C.recoverPubKey buffSignedData signature) then .ok ()
  else .error "Claim failed!"

/-- Source `src/node/app.js:45`: the UTXO lookup `patch.getUtxo(hash) || mapUtxos[hash]`. -/
def lookupUtxoView (patch : PatchDB) (mapUtxos : UtxoMap) (h : Hash) : Option UTXO :=
  match patch.getUtxo h with
  | some u => some u
  | none => alookup mapUtxos h

/-- Source `src/node/app.js:37-58`: one iteration of the `processTxInputs` loop for
input number `i`.  `claimProofs[i]` being absent corresponds to the JS
`undefined` rejected by the `typeforce` guard of `_verifyPayToAddr`. -/
def inputStep (C : CryptoFacade) (tx : Transaction) (mapUtxos : UtxoMap) (patch : PatchDB)
    (i : Nat) (input : TxInput) : Except String (PatchDB × Nat) :=
  match lookupUtxoView patch mapUtxos input.txHash with
  | none =>
    .error ("UTXO not found for " ++ input.txHash ++ " neither in patch nor in mapUtxos")
  | some utxo =>
    match utxo.coinsAtIndex input.nTxOutput with
    | .error e => .error e
    | .ok coins =>
      match tx.claimProofs[i]? with
      | none => .error "typeforce: expected Signature, got undefined"
      | some sig =>
        match verifyPayToAddr C coins.getReceiverAddr sig (tx.hashAt i) with
        | .error e => .error e
        | .ok _ =>
          match patch.spendCoins utxo input.nTxOutput tx.hash with
          | .error e => .error e
          | .ok p2 => .ok (p2, coins.getAmount)

/-- The `for` loop of `src/node/app.js:37-58`, with the working patch and the
running `totalHas` threaded explicitly.  The first component of the result is
the state of the (in JS: in-place mutated) working patch when the loop ends,
also when it ends by throwing. -/
def processLoop (C : CryptoFacade) (tx : Transaction) (mapUtxos : UtxoMap) :
    List (Nat × TxInput) → PatchDB → Nat → PatchDB × Except String Nat
  | [], patch, total => (patch, .ok total)
  | (i, input) :: rest, patch, total =>
    match inputStep C tx mapUtxos patch i input with
    | .error e => (patch, .error e)
    | .ok (p2, amount) => processLoop C tx mapUtxos rest p2 (total + amount)

/-- Source `src/node/app.js:29-61` (`Application.processTxInputs`). -/
def processTxInputs (C : CryptoFacade) (tx : Transaction) (mapUtxos : UtxoMap)
    (patchForBlock : Option PatchDB) : PatchDB × Except String Nat :=
  let patch := patchForBlock.getD PatchDB.empty
  processLoop C tx mapUtxos tx.inputs.enum patch 0

/-- The `for` loop of `src/node/app.js:75-78`. -/
def payLoop (txHash : Hash) : List (Nat × Coins) → PatchDB → Nat →
    Except String (PatchDB × Nat)
  | [], patch, total => .ok (patch, total)
  | (i, c) :: rest, patch, total =>
    match patch.createCoins txHash i c with
    | .error e => .error e
    | .ok p2 => payLoop txHash rest p2 (total + c.getAmount)

/-- Source `src/node/app.js:68-81` (`Application.processPayments`): create coins for
every output in declared order and return `totalSent`.  The (in JS in-place
mutated) patch is returned alongside. -/
def processPayments (tx : Transaction) (patch : PatchDB) : Except String (PatchDB × Nat) :=
  payLoop tx.hash tx.getOutCoins.enum patch 0

/-- Modelled from the spec (§4.5, design notes): the reflection view of the
instance returned by the sandboxed deployment run: its enumerable own data
properties, and the exported method names with their source text
(`retVal.export()` and `retVal[name].toString()`). -/
structure ContractInstance where
  dataProps : List (String × String)
  methods : List (String × String)
deriving DecidableEq, Repr

/-- Source `src/node/app.js:91-124` (`Application.createContract`).  The sandbox
(`new VM(...)` + `vm.run`) is passed in as `vmRun`; `predefCode` is the frozen
`predefinedClasses` source prepended to the transaction's code.  Note the
source joins exported method sources with a bare `reduce((a, c) => a + c)`
(plain concatenation) and returns `0`, recording no receipt. -/
def createContract (C : CryptoFacade) (vmRun : String → Except String ContractInstance)
    (predefCode : String) (tx : Transaction) (patch : PatchDB) :
    Except String (PatchDB × Nat) :=
  let strCode := tx.getCode
  match vmRun (predefCode ++ strCode) with
  | .error e => .error e
  | .ok retVal =>
    let objData := retVal.dataProps
    match retVal.methods.map (fun m => m.2) with
    | [] => .error "Reduce of empty array with no initial value"
    | funcCode :: rest =>
      let strCodeExportedFunctions := rest.foldl (fun accumCode c => accumCode ++ c) funcCode
      let contractAddr := C.getAddress tx.hash
      .ok (patch.setContract contractAddr objData strCodeExportedFunctions, 0)

/-- Source `src/node/app.js:126-128` (`Application.runContract`): the
function body is empty, so every call returns JS `undefined` — modelled as
`none`: no receipt is produced, no fee is charged, and none of the arguments
(`strCodeToRun`, `contractCode`, `patch`, `funcToLoadNestedContracts`) is
read. -/
def runContract (_strCodeToRun : String) (_contractCode : String) (_patch : PatchDB)
    (_funcToLoadNestedContracts : Address → Option Contract) : Option Receipt :=
  none

end Application

namespace WitnessGroupDefinition

/-- The `_data` record of `src/structures/witnessGroupDefinition.js`
(protobuf-backed).  `quorum = none` and `delegatesPublicKeys = none` model
the absent (JS `undefined`) fields. -/
structure WitnessGroupData where
  publicKeys : List PubKey
  delegatesPublicKeys : Option (List PubKey)
  quorum : Option Nat
  groupId : Nat
deriving DecidableEq, Repr

/-- Source `src/structures/witnessGroupDefinition.js:60-64` (`getQuorum`): a stored
truthy (non-zero) quorum is returned unchanged; otherwise
`parseInt(arr.length / 2) + 1` for `arr = delegatesPublicKeys || publicKeys`.
A stored `0` is falsy in JS, hence `Option.getD 0` conflates absent and
zero exactly as the source does. -/
def getQuorum (d : WitnessGroupData) : Nat :=
  if d.quorum.getD 0 ≠ 0 then d.quorum.getD 0
  else (d.delegatesPublicKeys.getD d.publicKeys).length / 2 + 1

end WitnessGroupDefinition

namespace CilUtils

/-- Source `src/utils.js:12-17` (`arrayIntersection`): the elements of `array2`, in
order, that are members of `array1` (the JS `Set` cache is a membership
test). -/
def arrayIntersection {α : Type} [DecidableEq α] (array1 array2 : List α) : List α :=
  array2.filter (fun elem => decide (elem ∈ array1))

/-- Source `src/utils.js:113-115` (`arrayEquals`). -/
def arrayEquals {α : Type} [DecidableEq α] (array1 array2 : List α) : Bool :=
  array1.length == array2.length &&
    (arrayIntersection array1 array2).length == array1.length

end CilUtils

/-! ## Specification-side definitions and well-formedness -/

/-- Spec-side (refinement, §4.3): the coins found at a referenced
`(tx_hash, output_index)` in a given state, reading the working patch first
and the snapshot second. -/
def coinsAtRef (p0 : PatchDB) (snap : UtxoMap) (h : Hash) (i : Nat) : Option Coins :=
  (Application.lookupUtxoView p0 snap h).bind
    (fun u => if i ∈ u.spent then none else alookup u.outputs i)

/-- Spec-side (refinement, §4.3): the sum, over a list of inputs in order, of
the amounts of the coins found at each referenced output; `none` when some
reference has no live coins. -/
def sumRefs (p0 : PatchDB) (snap : UtxoMap) : List TxInput → Option Nat
  | [] => some 0
  | input :: rest =>
    match coinsAtRef p0 snap input.txHash input.nTxOutput, sumRefs p0 snap rest with
    | some c, some t => some (c.getAmount + t)
    | _, _ => none

/-- Spec-side: `total_in` as the spec words it — the summed value of the
transaction's inputs, looked up in the initial state. -/
def specTotalIn (p0 : PatchDB) (snap : UtxoMap) (tx : Transaction) : Option Nat :=
  sumRefs p0 snap tx.inputs

/-- Well-formedness of a UTXO map (§3): every stored UTXO is keyed by its own
transaction hash, and no position is both live and tombstoned. -/
def wfMap (m : UtxoMap) : Prop :=
  ∀ e ∈ m, e.2.strHash = e.1 ∧ ∀ i ∈ e.2.spent, alookup e.2.outputs i = none

/-- The invariant threaded through the `processTxInputs` loop: the working
patch only ever shrinks live outputs relative to the initial view
(initial patch first, snapshot second), and stays keyed consistently. -/
def LoopInvar (p0 : PatchDB) (snap : UtxoMap) (p : PatchDB) : Prop :=
  (∀ h, p.getUtxo h = none → p0.getUtxo h = none) ∧
  (∀ h u, p.getUtxo h = some u → u.strHash = h ∧
    ∃ u0, Application.lookupUtxoView p0 snap h = some u0 ∧
      ∀ i c, alookup u.outputs i = some c → alookup u0.outputs i = some c ∧ i ∉ u0.spent)

/-! ## Helper lemmas -/

theorem alookup_mem {κ β : Type} [DecidableEq κ] {l : List (κ × β)} {k : κ} {b : β}
    (h : alookup l k = some b) : (k, b) ∈ l := by
  induction l with
  | nil => simp [alookup] at h
  | cons e rest ih =>
    obtain ⟨k', b'⟩ := e
    by_cases hk : k' = k
    · subst hk
      simp [alookup] at h
      subst h
      exact List.mem_cons_self _ _
    · simp [alookup, hk] at h
      exact List.mem_cons_of_mem _ (ih h)

theorem alookup_filter_ne {β : Type} (l : List (Nat × β)) (i j : Nat) :
    alookup (l.filter (fun e => e.1 != i)) j = if j = i then none else alookup l j := by
  induction l with
  | nil => simp [alookup]
  | cons e rest ih =>
    obtain ⟨k, b⟩ := e
    rw [List.filter_cons]
    by_cases hki : k = i
    · subst hki
      rw [if_neg (by simp)]
      rw [ih]
      by_cases hjk : j = k
      · simp [alookup, hjk]
      · simp only [hjk, if_false, alookup]
        rw [if_neg (fun h => hjk h.symm)]
    · rw [if_pos (by simp [hki])]
      by_cases hkj : k = j
      · subst hkj
        simp [alookup, hki]
      · simp only [alookup, hkj, if_false]
        rw [ih]

theorem filter_len_eq {α : Type} (p : α → Bool) (l : List α) :
    (l.filter p).length = l.length ↔ ∀ a ∈ l, p a := by
  induction l with
  | nil => simp
  | cons x xs ih =>
    rw [List.filter_cons]
    by_cases hx : p x
    · simp [hx, ih]
    · rw [if_neg hx]
      constructor
      · intro h
        exfalso
        rw [List.length_cons] at h
        have := List.length_filter_le p xs
        omega
      · intro h
        exact absurd (h x (List.mem_cons_self _ _)) (by simp [hx])

theorem ne_of_head (s t : String) (h : s.data.head? ≠ t.data.head?) : s ≠ t :=
  fun e => h (by rw [e])

theorem cons_append_head (c : Char) (l r : List Char) : ((c :: l) ++ r).head? = some c := rfl

theorem coinsAtIndex_ok_elim {u : UTXO} {i : Nat} {c : Coins}
    (h : u.coinsAtIndex i = .ok c) : i ∉ u.spent ∧ alookup u.outputs i = some c := by
  unfold UTXO.coinsAtIndex at h
  by_cases hs : i ∈ u.spent
  · rw [if_pos hs] at h; exact absurd h (by simp)
  · rw [if_neg hs] at h
    refine ⟨hs, ?_⟩
    cases hl : alookup u.outputs i with
    | none => rw [hl] at h; exact absurd h (by simp)
    | some c' => rw [hl] at h; simp at h; rw [h]

theorem spendCoinsP_ok_elim {p : PatchDB} {u : UTXO} {i : Nat} {h3 : Hash} {p2 : PatchDB}
    (hbase : (p.getUtxo u.strHash).getD u = u)
    (h : p.spendCoins u i h3 = .ok p2) :
    i ∉ u.spent ∧
      p2 = p.setUtxo u.strHash
        { u with outputs := u.outputs.filter (fun e => e.1 != i), spent := i :: u.spent } := by
  unfold PatchDB.spendCoins at h
  rw [hbase] at h
  unfold UTXO.spendCoins at h
  by_cases hs : i ∈ u.spent
  · rw [if_pos hs] at h; exact absurd h (by simp)
  · rw [if_neg hs] at h
    simp at h
    exact ⟨hs, h.symm⟩

theorem verifyPayToAddr_ok_iff (C : CryptoFacade) (address : Address) (signature : Sig)
    (buffSignedData : Hash) :
    Application.verifyPayToAddr C address signature buffSignedData = .ok () ↔
      address = C.getAddress (C.recoverPubKey buffSignedData signature) := by
  unfold Application.verifyPayToAddr
  by_cases hc : address = C.getAddress (C.recoverPubKey buffSignedData signature)
  · rw [if_pos hc]; simp [hc]
  · rw [if_neg hc]; simp [hc]

theorem verifyPayToAddr_error_iff (C : CryptoFacade) (address : Address) (signature : Sig)
    (buffSignedData : Hash) :
    Application.verifyPayToAddr C address signature buffSignedData = .error "Claim failed!" ↔
      address ≠ C.getAddress (C.recoverPubKey buffSignedData signature) := by
  unfold Application.verifyPayToAddr
  by_cases hc : address = C.getAddress (C.recoverPubKey buffSignedData signature)
  · rw [if_pos hc]; simp [hc]
  · rw [if_neg hc]; simp [hc]

theorem inputStep_ok_elim {C : CryptoFacade} {tx : Transaction} {snap : UtxoMap} {p : PatchDB}
    {i : Nat} {input : TxInput} {p2 : PatchDB} {amt : Nat}
    (h : Application.inputStep C tx snap p i input = .ok (p2, amt)) :
    ∃ utxo coins sig,
      Application.lookupUtxoView p snap input.txHash = some utxo ∧
      utxo.coinsAtIndex input.nTxOutput = .ok coins ∧
      tx.claimProofs[i]? = some sig ∧
      Application.verifyPayToAddr C coins.getReceiverAddr sig (tx.hashAt i) = .ok () ∧
      p.spendCoins utxo input.nTxOutput tx.hash = .ok p2 ∧
      amt = coins.getAmount := by
  unfold Application.inputStep at h
  split at h
  · exact absurd h (by simp)
  next utxo hv =>
    split at h
    · exact absurd h (by simp)
    next coins hcoins =>
      split at h
      · exact absurd h (by simp)
      next sig hsig =>
        split at h
        · exact absurd h (by simp)
        next a hver =>
          split at h
          · exact absurd h (by simp)
          next p2' hspend =>
            simp only [Except.ok.injEq, Prod.mk.injEq] at h
            refine ⟨utxo, coins, sig, hv, hcoins, hsig, ?_, ?_, h.2.symm⟩
            · cases a; exact hver
            · rw [← h.1]; exact hspend

theorem lookupUtxoView_of_patch {p : PatchDB} {snap : UtxoMap} {h : Hash} {u : UTXO}
    (hp : p.getUtxo h = some u) : Application.lookupUtxoView p snap h = some u := by
  unfold Application.lookupUtxoView
  rw [hp]

theorem lookupUtxoView_of_no_patch {p : PatchDB} (snap : UtxoMap) {h : Hash}
    (hp : p.getUtxo h = none) : Application.lookupUtxoView p snap h = alookup snap h := by
  unfold Application.lookupUtxoView
  rw [hp]

theorem loopInvar_init (p0 : PatchDB) (snap : UtxoMap) (hp0 : wfMap p0.mapUtxos) :
    LoopInvar p0 snap p0 := by
  constructor
  · intro h hnone; exact hnone
  · intro h u hu
    have hwf := hp0 (h, u) (alookup_mem hu)
    refine ⟨hwf.1, u, lookupUtxoView_of_patch hu, ?_⟩
    intro i c hic
    refine ⟨hic, fun hispent => ?_⟩
    rw [hwf.2 i hispent] at hic
    exact absurd hic (by simp)

theorem lookupView_found {p0 : PatchDB} {snap : UtxoMap} {p : PatchDB} {h : Hash} {u : UTXO}
    (hsnap : wfMap snap) (hinv : LoopInvar p0 snap p)
    (hv : Application.lookupUtxoView p snap h = some u) :
    u.strHash = h ∧ (p.getUtxo u.strHash).getD u = u ∧
      (p.getUtxo h = some u ∨ (p.getUtxo h = none ∧ alookup snap h = some u)) := by
  unfold Application.lookupUtxoView at hv
  cases hp : p.getUtxo h with
  | some u' =>
    rw [hp] at hv
    have hv2 : some u' = some u := hv
    simp at hv2
    rw [hv2] at hp
    have hsh := (hinv.2 h u hp).1
    refine ⟨hsh, ?_, Or.inl hv⟩
    rw [hsh, hp]
    rfl
  | none =>
    rw [hp] at hv
    have hv2 : alookup snap h = some u := hv
    have hs := hsnap (h, u) (alookup_mem hv2)
    refine ⟨hs.1, ?_, Or.inr ⟨rfl, hv2⟩⟩
    rw [hs.1, hp]
    rfl

theorem getUtxo_setUtxo (p : PatchDB) (h h2 : Hash) (u : UTXO) :
    (p.setUtxo h u).getUtxo h2 = if h = h2 then some u else p.getUtxo h2 := by
  unfold PatchDB.setUtxo PatchDB.getUtxo
  simp [alookup]

theorem inputStep_ok_invar {C : CryptoFacade} {tx : Transaction} {snap : UtxoMap}
    {p0 p p2 : PatchDB} {i amt : Nat} {input : TxInput}
    (hsnap : wfMap snap) (hinv : LoopInvar p0 snap p)
    (hstep : Application.inputStep C tx snap p i input = .ok (p2, amt)) :
    (∃ coins, coinsAtRef p0 snap input.txHash input.nTxOutput = some coins ∧
      amt = coins.getAmount) ∧ LoopInvar p0 snap p2 := by
  obtain ⟨utxo, coins, sig, hv, hcoins, hsig, hver, hspend, hamt⟩ := inputStep_ok_elim hstep
  obtain ⟨hnotspent, houtc⟩ := coinsAtIndex_ok_elim hcoins
  obtain ⟨hkeyeq, hbase, hcase⟩ := lookupView_found hsnap hinv hv
  obtain ⟨hnsp, hp2⟩ := spendCoinsP_ok_elim hbase hspend
  constructor
  · -- the coins are found at the same reference in the initial state
    refine ⟨coins, ?_, hamt⟩
    unfold coinsAtRef
    rcases hcase with hp | ⟨hp, hsnapl⟩
    · obtain ⟨-, u0, hview0, hmono⟩ := hinv.2 input.txHash utxo hp
      rw [hview0, Option.some_bind]
      obtain ⟨h1, h2⟩ := hmono input.nTxOutput coins houtc
      rw [if_neg h2, h1]
    · rw [lookupUtxoView_of_no_patch snap (hinv.1 _ hp), hsnapl, Option.some_bind,
        if_neg hnotspent, houtc]
  · -- the loop invariant is preserved by the spend
    subst hp2
    constructor
    · intro h hnone
      rw [getUtxo_setUtxo] at hnone
      by_cases hh : utxo.strHash = h
      · rw [if_pos hh] at hnone; exact absurd hnone (by simp)
      · rw [if_neg hh] at hnone; exact hinv.1 h hnone
    · intro h u hu
      rw [getUtxo_setUtxo] at hu
      by_cases hh : utxo.strHash = h
      · rw [if_pos hh] at hu
        have hu2 : _ = u := Option.some_injective _ hu
        subst hu2
        have hheq : h = input.txHash := by rw [← hh, hkeyeq]
        subst hheq
        refine ⟨hkeyeq, ?_⟩
        rcases hcase with hp | ⟨hp, hsnapl⟩
        · obtain ⟨-, u0, hview0, hmono⟩ := hinv.2 input.txHash utxo hp
          refine ⟨u0, hview0, ?_⟩
          intro j c hj
          simp only at hj
          rw [alookup_filter_ne] at hj
          by_cases hji : j = input.nTxOutput
          · rw [if_pos hji] at hj; exact absurd hj (by simp)
          · rw [if_neg hji] at hj
            exact hmono j c hj
        · have hs := hsnap (input.txHash, utxo) (alookup_mem hsnapl)
          refine ⟨utxo, by rw [lookupUtxoView_of_no_patch snap (hinv.1 _ hp)]; exact hsnapl, ?_⟩
          intro j c hj
          simp only at hj
          rw [alookup_filter_ne] at hj
          by_cases hji : j = input.nTxOutput
          · rw [if_pos hji] at hj; exact absurd hj (by simp)
          · rw [if_neg hji] at hj
            refine ⟨hj, fun hjs => ?_⟩
            rw [hs.2 j hjs] at hj
            exact absurd hj (by simp)
      · rw [if_neg hh] at hu
        exact hinv.2 h u hu

theorem processLoop_ok_sum (C : CryptoFacade) (tx : Transaction) (snap : UtxoMap)
    (p0 : PatchDB) (hsnap : wfMap snap) :
    ∀ (pairs : List (Nat × TxInput)) (p : PatchDB) (t0 : Nat) (pf : PatchDB) (tf : Nat),
    LoopInvar p0 snap p →
    Application.processLoop C tx snap pairs p t0 = (pf, .ok tf) →
    ∃ s, sumRefs p0 snap (pairs.map Prod.snd) = some s ∧ tf = t0 + s := by
  intro pairs
  induction pairs with
  | nil =>
    intro p t0 pf tf hinv hrun
    simp [Application.processLoop] at hrun
    exact ⟨0, by simp [sumRefs], by omega⟩
  | cons pi rest ih =>
    obtain ⟨i, input⟩ := pi
    intro p t0 pf tf hinv hrun
    unfold Application.processLoop at hrun
    split at hrun
    · exact absurd hrun (by simp)
    next p2 amount hstep =>
      obtain ⟨⟨coins, hcoins, hamt⟩, hinv2⟩ := inputStep_ok_invar hsnap hinv hstep
      obtain ⟨s, hsum, htf⟩ := ih p2 (t0 + amount) pf tf hinv2 hrun
      refine ⟨coins.getAmount + s, ?_, by omega⟩
      simp only [List.map_cons, sumRefs, hcoins, hsum]

theorem processLoop_error_elim (C : CryptoFacade) (tx : Transaction) (snap : UtxoMap) :
    ∀ (pairs : List (Nat × TxInput)) (p : PatchDB) (t0 : Nat) (pf : PatchDB) (e : String),
    Application.processLoop C tx snap pairs p t0 = (pf, .error e) →
    ∃ (k : Nat) (hk : k < pairs.length) (t2 : Nat),
      Application.processLoop C tx snap (pairs.take k) p t0 = (pf, .ok t2) ∧
      Application.inputStep C tx snap pf (pairs.get ⟨k, hk⟩).1 (pairs.get ⟨k, hk⟩).2 =
        .error e := by
  intro pairs
  induction pairs with
  | nil =>
    intro p t0 pf e hrun
    simp [Application.processLoop] at hrun
  | cons pi rest ih =>
    obtain ⟨i, input⟩ := pi
    intro p t0 pf e hrun
    unfold Application.processLoop at hrun
    split at hrun
    next e2 hstep =>
      simp only [Prod.mk.injEq] at hrun
      obtain ⟨hpf, herr⟩ := hrun
      simp only [Except.error.injEq] at herr
      refine ⟨0, by simp, t0, ?_, ?_⟩
      · simp [Application.processLoop, hpf]
      · subst hpf
        subst herr
        exact hstep
    next p2 amount hstep =>
      obtain ⟨k, hk, t2, hloop, hfail⟩ := ih p2 (t0 + amount) pf e hrun
      refine ⟨k + 1, by simp [Nat.succ_lt_succ hk], t2, ?_, ?_⟩
      · rw [List.take_succ_cons]
        unfold Application.processLoop
        rw [hstep]
        exact hloop
      · exact hfail

/-! ## Concrete objects used by witnesses -/

def cfacW : CryptoFacade :=
  { recoverPubKey := fun d s => d ++ s, getAddress := fun pk => "addr:" ++ pk }

def coinsW : Coins := ⟨100000, "addr:h1s1"⟩

def utxoW : UTXO := { strHash := "aa", outputs := [(0, coinsW), (12, coinsW)], spent := [] }

def snapW : UtxoMap := [("aa", utxoW)]

def txW : Transaction :=
  { strHash := "h1", inputs := [⟨"aa", 0⟩, ⟨"aa", 12⟩], claimProofs := ["s1", "s1"],
    outCoins := [⟨1000, "addr:h1s1"⟩], code := "" }

def txBadW : Transaction :=
  { strHash := "h1", inputs := [⟨"aa", 0⟩, ⟨"zz", 0⟩], claimProofs := ["s1", "s1"],
    outCoins := [], code := "" }

/-! ## Claim theorems -/

/-- Claim C1: `processTxInputs` works on the caller-supplied `block_patch` when
one is provided and on a fresh empty patch otherwise (the supplied patch is
the one returned — for no inputs it is returned untouched), and on success
`total_in` is the sum, over the transaction's inputs in declared order, of
the amounts of the coins found at each referenced `(tx_hash, output_index)`
(lookups read the working patch first, then the snapshot). -/
theorem claim_C1 (C : CryptoFacade) (tx : Transaction) (snap : UtxoMap)
    (p0 : PatchDB) (hsnap : wfMap snap) (hp0 : wfMap p0.mapUtxos) :
    Application.processTxInputs C tx snap none =
      Application.processTxInputs C tx snap (some PatchDB.empty) ∧
    Application.processTxInputs C tx snap (some p0) =
      Application.processLoop C tx snap tx.inputs.enum p0 0 ∧
    (tx.inputs = [] → Application.processTxInputs C tx snap (some p0) = (p0, .ok 0)) ∧
    (∀ pf total, Application.processTxInputs C tx snap (some p0) = (pf, .ok total) →
      specTotalIn p0 snap tx = some total) := by
  refine ⟨rfl, rfl, ?_, ?_⟩
  · intro hemp
    simp [Application.processTxInputs, hemp, List.enum, Application.processLoop]
  · intro pf total hrun
    unfold Application.processTxInputs at hrun
    obtain ⟨s, hsum, htot⟩ :=
      processLoop_ok_sum C tx snap p0 hsnap tx.inputs.enum p0 0 pf total
        (loopInvar_init p0 snap hp0) hrun
    rw [List.enum_map_snd] at hsum
    unfold specTotalIn
    rw [hsum, htot]
    simp

theorem claim_C1_witness :
    specTotalIn PatchDB.empty snapW txW = some 200000 :=
  (claim_C1 cfacW txW snapW PatchDB.empty (by unfold wfMap; decide)
      (by unfold wfMap; decide)).2.2.2
    (Application.processTxInputs cfacW txW snapW (some PatchDB.empty)).1 200000 (by rfl)

/-- Claim C4: if `processTxInputs` with a caller-supplied patch fails, the
returned (in JS: in-place mutated) patch is exactly the state obtained by
successfully processing inputs `0..k-1` starting from the supplied patch, and
input `k` is the one that failed, recording no spend. -/
theorem claim_C4 (C : CryptoFacade) (tx : Transaction) (snap : UtxoMap)
    (p0 pf : PatchDB) (e : String)
    (hrun : Application.processTxInputs C tx snap (some p0) = (pf, .error e)) :
    ∃ (k : Nat) (hk : k < tx.inputs.length) (t2 : Nat),
      Application.processLoop C tx snap (tx.inputs.enum.take k) p0 0 = (pf, .ok t2) ∧
      Application.inputStep C tx snap pf k (tx.inputs.get ⟨k, hk⟩) = .error e := by
  unfold Application.processTxInputs at hrun
  obtain ⟨k, hk, t2, hloop, hfail⟩ :=
    processLoop_error_elim C tx snap tx.inputs.enum p0 0 pf e hrun
  have hk2 : k < tx.inputs.length := by rwa [List.enum_length] at hk
  refine ⟨k, hk2, t2, hloop, ?_⟩
  have hget : tx.inputs.enum.get ⟨k, hk⟩ = (k, tx.inputs.get ⟨k, hk2⟩) := by
    simp [List.get_eq_getElem, List.getElem_enum]
  rw [hget] at hfail
  exact hfail

theorem claim_C4_witness :
    ∃ (k : Nat) (hk : k < txBadW.inputs.length) (t2 : Nat),
      Application.processLoop cfacW txBadW snapW (txBadW.inputs.enum.take k)
        PatchDB.empty 0 =
        ((Application.processTxInputs cfacW txBadW snapW (some PatchDB.empty)).1, .ok t2) ∧
      Application.inputStep cfacW txBadW snapW
        (Application.processTxInputs cfacW txBadW snapW (some PatchDB.empty)).1 k
        (txBadW.inputs.get ⟨k, hk⟩) =
        .error "UTXO not found for zz neither in patch nor in mapUtxos" :=
  claim_C4 cfacW txBadW snapW PatchDB.empty _ _ (by rfl)

theorem verifyPayToAddr_error_elim {C : CryptoFacade} {addr : Address} {sig : Sig}
    {d : Hash} {e : String} (h : Application.verifyPayToAddr C addr sig d = .error e) :
    e = "Claim failed!" := by
  unfold Application.verifyPayToAddr at h
  by_cases hc : addr = C.getAddress (C.recoverPubKey d sig)
  · rw [if_pos hc] at h; exact absurd h (by simp)
  · rw [if_neg hc] at h; simp at h; exact h.symm

theorem coinsAtIndex_error_elim {u : UTXO} {i : Nat} {e : String}
    (h : u.coinsAtIndex i = .error e) :
    e = ("Tx " ++ u.strHash ++ " index " ++ toString i ++ " already deleted!") ∨
    e = ("Output #" ++ toString i ++ " of Tx " ++ u.strHash ++ " already spent!") := by
  unfold UTXO.coinsAtIndex at h
  by_cases hs : i ∈ u.spent
  · rw [if_pos hs] at h; simp at h; exact Or.inl h.symm
  · rw [if_neg hs] at h
    cases hl : alookup u.outputs i with
    | some c => rw [hl] at h; exact absurd h (by simp)
    | none => rw [hl] at h; simp at h; exact Or.inr h.symm

theorem spendCoinsP_error_elim {p : PatchDB} {u : UTXO} {i : Nat} {h3 : Hash} {e : String}
    (h : p.spendCoins u i h3 = .error e) :
    e = ("Tx " ++ ((p.getUtxo u.strHash).getD u).strHash ++ " index " ++ toString i ++
      " already deleted!") := by
  unfold PatchDB.spendCoins UTXO.spendCoins at h
  by_cases hs : i ∈ ((p.getUtxo u.strHash).getD u).spent
  · rw [if_pos hs] at h; simp at h; exact h.symm
  · rw [if_neg hs] at h; exact absurd h (by simp)

theorem txDeleted_ne_claim (a : String) (i : Nat) :
    ("Tx " ++ a ++ " index " ++ toString i ++ " already deleted!") ≠ "Claim failed!" := by
  apply ne_of_head
  simp only [String.data_append, List.append_assoc]
  rw [cons_append_head]
  decide

theorem txDeleted_ne_notFound (a b : String) (i : Nat) :
    ("Tx " ++ a ++ " index " ++ toString i ++ " already deleted!") ≠
      ("UTXO not found for " ++ b ++ " neither in patch nor in mapUtxos") := by
  apply ne_of_head
  simp only [String.data_append, List.append_assoc]
  rw [cons_append_head, cons_append_head]
  decide

theorem outputSpent_ne_notFound (a b : String) (i : Nat) :
    ("Output #" ++ toString i ++ " of Tx " ++ a ++ " already spent!") ≠
      ("UTXO not found for " ++ b ++ " neither in patch nor in mapUtxos") := by
  apply ne_of_head
  simp only [String.data_append, List.append_assoc]
  rw [cons_append_head, cons_append_head]
  decide

theorem typeforce_ne_notFound (b : String) :
    ("typeforce: expected Signature, got undefined" : String) ≠
      ("UTXO not found for " ++ b ++ " neither in patch nor in mapUtxos") := by
  apply ne_of_head
  simp only [String.data_append, List.append_assoc]
  rw [cons_append_head]
  decide

theorem claimFailed_ne_notFound (b : String) :
    ("Claim failed!" : String) ≠
      ("UTXO not found for " ++ b ++ " neither in patch nor in mapUtxos") := by
  apply ne_of_head
  simp only [String.data_append, List.append_assoc]
  rw [cons_append_head]
  decide

/-- Claim C2: each input's claim is checked by recovering a public key from the
signed digest `tx.hash(i)` and the input's claim proof, deriving its address
and comparing it byte-for-byte with the receiver address of the referenced
coins; given that the UTXO and coins lookups for the input succeed,
`processTxInputs`' per-input step throws `Claim failed!` exactly when the
derived address differs from the receiver address. -/
theorem claim_C2 (C : CryptoFacade) (tx : Transaction) (snap : UtxoMap) (p : PatchDB)
    (i : Nat) (input : TxInput) (utxo : UTXO) (coins : Coins) (sig : Sig)
    (hv : Application.lookupUtxoView p snap input.txHash = some utxo)
    (hcoins : utxo.coinsAtIndex input.nTxOutput = .ok coins)
    (hsig : tx.claimProofs[i]? = some sig) :
    (Application.verifyPayToAddr C coins.getReceiverAddr sig (tx.hashAt i) =
        .error "Claim failed!" ↔
      coins.getReceiverAddr ≠ C.getAddress (C.recoverPubKey (tx.hashAt i) sig)) ∧
    (Application.inputStep C tx snap p i input = .error "Claim failed!" ↔
      coins.getReceiverAddr ≠ C.getAddress (C.recoverPubKey (tx.hashAt i) sig)) := by
  refine ⟨verifyPayToAddr_error_iff C coins.getReceiverAddr sig (tx.hashAt i), ?_⟩
  unfold Application.inputStep
  simp only [hv, hcoins, hsig]
  by_cases hc : coins.getReceiverAddr = C.getAddress (C.recoverPubKey (tx.hashAt i) sig)
  · have hok : Application.verifyPayToAddr C coins.getReceiverAddr sig (tx.hashAt i) =
        .ok () := (verifyPayToAddr_ok_iff C _ sig (tx.hashAt i)).mpr hc
    simp only [hok]
    constructor
    · intro h
      exfalso
      cases hspend : p.spendCoins utxo input.nTxOutput tx.hash with
      | ok p2 => rw [hspend] at h; exact absurd h (by simp)
      | error e =>
        rw [hspend] at h
        simp only [Except.error.injEq] at h
        have := spendCoinsP_error_elim hspend
        rw [h] at this
        exact txDeleted_ne_claim _ _ this.symm
    · intro h; exact absurd hc h
  · have herr : Application.verifyPayToAddr C coins.getReceiverAddr sig (tx.hashAt i) =
        .error "Claim failed!" := (verifyPayToAddr_error_iff C _ sig (tx.hashAt i)).mpr hc
    simp only [herr]
    constructor
    · intro _; exact hc
    · intro _; trivial

def txBadSigW : Transaction :=
  { strHash := "h1", inputs := [⟨"aa", 0⟩], claimProofs := ["bad"],
    outCoins := [], code := "" }

theorem claim_C2_witness :
    Application.inputStep cfacW txBadSigW snapW PatchDB.empty 0 ⟨"aa", 0⟩ =
      .error "Claim failed!" :=
  ((claim_C2 cfacW txBadSigW snapW PatchDB.empty 0 ⟨"aa", 0⟩ utxoW coinsW "bad"
      (by rfl) (by rfl) (by rfl)).2).mpr (by decide)

def txNoUtxoW : Transaction :=
  { strHash := "h1", inputs := [⟨"zz", 0⟩], claimProofs := ["s1"],
    outCoins := [], code := "" }

/-- Claim C3, counterexample: the claim says the failure message for an input
whose referenced hash is in neither map is `UTXO not found for <tx_hash>`;
the code's message carries the additional suffix
`neither in patch nor in mapUtxos`, so the two differ on this concrete
run. -/
theorem claim_C3_counterexample :
    Application.processTxInputs cfacW txNoUtxoW snapW (some PatchDB.empty) =
      (PatchDB.empty, .error "UTXO not found for zz neither in patch nor in mapUtxos") ∧
    "UTXO not found for zz neither in patch nor in mapUtxos" ≠ "UTXO not found for zz" := by
  exact ⟨by rfl, by decide⟩

/-- Claim C3, amended: the per-input step of `processTxInputs` fails with
`UTXO not found for <tx_hash> neither in patch nor in mapUtxos` exactly when
the referenced transaction hash is present in neither the working patch nor
the snapshot, and the lookup consults the working patch first and the
snapshot second. -/
theorem claim_C3_amended (C : CryptoFacade) (tx : Transaction) (snap : UtxoMap)
    (p : PatchDB) (i : Nat) (input : TxInput) :
    (Application.inputStep C tx snap p i input =
        .error ("UTXO not found for " ++ input.txHash ++
          " neither in patch nor in mapUtxos") ↔
      Application.lookupUtxoView p snap input.txHash = none) ∧
    (∀ u, p.getUtxo input.txHash = some u →
      Application.lookupUtxoView p snap input.txHash = some u) ∧
    (p.getUtxo input.txHash = none →
      Application.lookupUtxoView p snap input.txHash = alookup snap input.txHash) := by
  refine ⟨?_, fun u hu => lookupUtxoView_of_patch hu,
    fun hn => lookupUtxoView_of_no_patch snap hn⟩
  constructor
  · intro hstep
    cases hvv : Application.lookupUtxoView p snap input.txHash with
    | none => rfl
    | some u =>
      exfalso
      unfold Application.inputStep at hstep
      rw [hvv] at hstep
      have hstep2 :
          (match u.coinsAtIndex input.nTxOutput with
            | Except.error e => Except.error e
            | Except.ok coins =>
              match tx.claimProofs[i]? with
              | none =>
                Except.error "typeforce: expected Signature, got undefined"
              | some sig =>
                match Application.verifyPayToAddr C coins.getReceiverAddr sig
                    (tx.hashAt i) with
                | Except.error e => Except.error e
                | Except.ok _ =>
                  match p.spendCoins u input.nTxOutput tx.hash with
                  | Except.error e => Except.error e
                  | Except.ok p2 =>
                    Except.ok (p2, coins.getAmount)) =
            Except.error ("UTXO not found for " ++ input.txHash ++
              " neither in patch nor in mapUtxos") := hstep
      clear hstep
      cases hcoins : u.coinsAtIndex input.nTxOutput with
      | error e =>
        simp only [hcoins, Except.error.injEq] at hstep2
        rcases coinsAtIndex_error_elim hcoins with h1 | h1 <;> rw [h1] at hstep2
        · exact txDeleted_ne_notFound _ _ _ hstep2
        · exact outputSpent_ne_notFound _ _ _ hstep2
      | ok coins =>
        simp only [hcoins] at hstep2
        cases hsig : tx.claimProofs[i]? with
        | none =>
          simp only [hsig, Except.error.injEq] at hstep2
          exact typeforce_ne_notFound _ hstep2
        | some sig =>
          simp only [hsig] at hstep2
          cases hver : Application.verifyPayToAddr C coins.getReceiverAddr sig
              (tx.hashAt i) with
          | error e =>
            simp only [hver, Except.error.injEq] at hstep2
            rw [verifyPayToAddr_error_elim hver] at hstep2
            exact claimFailed_ne_notFound _ hstep2
          | ok a =>
            simp only [hver] at hstep2
            cases hsp : p.spendCoins u input.nTxOutput tx.hash with
            | error e =>
              simp only [hsp, Except.error.injEq] at hstep2
              rw [spendCoinsP_error_elim hsp] at hstep2
              exact txDeleted_ne_notFound _ _ _ hstep2
            | ok p2 =>
              simp only [hsp] at hstep2
              exact absurd hstep2 (by simp)
  · intro hvv
    unfold Application.inputStep
    rw [hvv]

theorem claim_C3_witness :
    Application.inputStep cfacW txNoUtxoW snapW PatchDB.empty 0 ⟨"zz", 0⟩ =
      .error ("UTXO not found for " ++ "zz" ++ " neither in patch nor in mapUtxos") ∧
    Application.lookupUtxoView ⟨[("aa", utxoW)], [], []⟩ snapW "aa" = some utxoW :=
  ⟨((claim_C3_amended cfacW txNoUtxoW snapW PatchDB.empty 0 ⟨"zz", 0⟩).1).mpr (by rfl),
   (claim_C3_amended cfacW txNoUtxoW snapW ⟨[("aa", utxoW)], [], []⟩ 0 ⟨"aa", 0⟩).2.1
     utxoW (by rfl)⟩

theorem createCoins_ok_elim {p : PatchDB} {h : Hash} {i : Nat} {c : Coins} {p2 : PatchDB}
    (hc : p.createCoins h i c = .ok p2) :
    alookup ((p.getUtxo h).getD ⟨h, [], []⟩).outputs i = none ∧
    p2 = p.setUtxo h
      { (p.getUtxo h).getD ⟨h, [], []⟩ with
        outputs := (i, c) :: ((p.getUtxo h).getD ⟨h, [], []⟩).outputs } := by
  unfold PatchDB.createCoins at hc
  by_cases hl : (alookup ((p.getUtxo h).getD ⟨h, [], []⟩).outputs i).isSome
  · rw [if_pos hl] at hc; exact absurd hc (by simp)
  · rw [if_neg hl] at hc
    simp only [Except.ok.injEq] at hc
    exact ⟨Option.not_isSome_iff_eq_none.mp hl, hc.symm⟩

/-- Live coins at `(h, j)` as seen through a patch. -/
def liveAt (p : PatchDB) (h : Hash) (j : Nat) : Option Coins :=
  (p.getUtxo h).bind (fun u => alookup u.outputs j)

theorem payLoop_ok_elim (txHash : Hash) :
    ∀ (l : List (Nat × Coins)) (p : PatchDB) (t0 : Nat) (pf : PatchDB) (tf : Nat),
    Application.payLoop txHash l p t0 = .ok (pf, tf) →
    tf = t0 + (l.map (fun e => e.2.getAmount)).sum ∧
    (∀ j c, liveAt p txHash j = some c → liveAt pf txHash j = some c) ∧
    (∀ e ∈ l, liveAt pf txHash e.1 = some e.2) := by
  intro l
  induction l with
  | nil =>
    intro p t0 pf tf hrun
    simp [Application.payLoop] at hrun
    obtain ⟨hp, ht⟩ := hrun
    subst hp
    exact ⟨by simp [ht.symm], fun j c hc => hc, by simp⟩
  | cons e rest ih =>
    obtain ⟨i, c⟩ := e
    intro p t0 pf tf hrun
    unfold Application.payLoop at hrun
    split at hrun
    · exact absurd hrun (by simp)
    next p2 hcreate =>
      obtain ⟨hnone, hp2⟩ := createCoins_ok_elim hcreate
      obtain ⟨htf, hmono, hall⟩ := ih p2 (t0 + c.getAmount) pf tf hrun
      have hp2live : liveAt p2 txHash i = some c := by
        subst hp2
        unfold liveAt
        rw [getUtxo_setUtxo, if_pos rfl, Option.some_bind]
        simp [alookup]
      have hmono2 : ∀ j c2, liveAt p txHash j = some c2 → liveAt p2 txHash j = some c2 := by
        intro j c2 hj
        subst hp2
        unfold liveAt at hj ⊢
        cases hpu : p.getUtxo txHash with
        | none => rw [hpu] at hj; exact absurd hj (by simp)
        | some u =>
          rw [hpu] at hj
          rw [Option.some_bind] at hj
          rw [getUtxo_setUtxo, if_pos rfl, Option.some_bind]
          simp only [alookup]
          have hji : ¬ i = j := by
            intro hij
            rw [hpu] at hnone
            simp only [Option.getD_some] at hnone
            rw [hij] at hnone
            rw [hnone] at hj
            exact absurd hj (by simp)
          rw [if_neg hji]
          simpa using hj
      refine ⟨by simp [htf]; omega, fun j c2 hj => hmono j c2 (hmono2 j c2 hj), ?_⟩
      intro e he
      rcases List.mem_cons.mp he with he1 | he2
      · subst he1
        exact hmono i c hp2live
      · exact hall e he2

/-- Claim C5: `processPayments` iterates the transaction's outputs in declared
order, creating coins at `(tx.hash(), index)` in the patch for every output
index, and returns the sum of the output amounts; a transaction with no
inputs yields `total_in = 0` from `processTxInputs` (its supplied patch
untouched), the payment step proceeding independently, and an output with a
positive amount leaves a non-empty UTXO under `tx.hash()` in the patch. -/
theorem claim_C5 (tx : Transaction) (patch pf : PatchDB) (total : Nat) :
    (Application.processPayments tx patch = .ok (pf, total) →
      total = (tx.getOutCoins.map Coins.getAmount).sum ∧
      (∀ (j : Nat) (hj : j < tx.getOutCoins.length),
        liveAt pf tx.hash j = some (tx.getOutCoins.get ⟨j, hj⟩)) ∧
      ((∃ c ∈ tx.getOutCoins, 0 < c.getAmount) →
        ∃ u, pf.getUtxo tx.hash = some u ∧ u.isEmpty = false)) ∧
    (tx.inputs = [] → ∀ (C : CryptoFacade) (snap : UtxoMap) (bp : Option PatchDB),
      Application.processTxInputs C tx snap bp = (bp.getD PatchDB.empty, .ok 0)) := by
  constructor
  · intro hrun
    unfold Application.processPayments at hrun
    obtain ⟨htot, hmono, hall⟩ :=
      payLoop_ok_elim tx.hash tx.getOutCoins.enum patch 0 pf total hrun
    have hmap : (tx.getOutCoins.enum.map (fun e => e.2.getAmount)).sum =
        (tx.getOutCoins.map Coins.getAmount).sum := by
      have : tx.getOutCoins.enum.map (fun e => e.2.getAmount) =
          (tx.getOutCoins.enum.map Prod.snd).map Coins.getAmount := by
        rw [List.map_map]
        rfl
      rw [this, List.enum_map_snd]
    have hidx : ∀ (j : Nat) (hj : j < tx.getOutCoins.length),
        liveAt pf tx.hash j = some (tx.getOutCoins.get ⟨j, hj⟩) := by
      intro j hj
      have hjlen : j < tx.getOutCoins.enum.length := by
        rw [List.enum_length]; exact hj
      have hget : tx.getOutCoins.enum.get ⟨j, hjlen⟩ =
          (j, tx.getOutCoins.get ⟨j, hj⟩) := by
        simp [List.get_eq_getElem, List.getElem_enum]
      have hmem := List.get_mem tx.getOutCoins.enum j hjlen
      rw [hget] at hmem
      exact hall _ hmem
    refine ⟨by rw [htot, hmap]; simp, hidx, ?_⟩
    intro ⟨c, hc, hcpos⟩
    obtain ⟨⟨j, hj⟩, hcj⟩ := List.mem_iff_get.mp hc
    have := hidx j hj
    unfold liveAt at this
    cases hpu : pf.getUtxo tx.hash with
    | none => rw [hpu] at this; exact absurd this (by simp)
    | some u =>
      rw [hpu, Option.some_bind] at this
      refine ⟨u, rfl, ?_⟩
      unfold UTXO.isEmpty
      cases houts : u.outputs with
      | nil => rw [houts] at this; exact absurd this (by simp [alookup])
      | cons a l => simp
  · intro hemp C snap bp
    unfold Application.processTxInputs
    rw [hemp]
    rfl

def txCbW : Transaction :=
  { strHash := "hcb", inputs := [], claimProofs := [],
    outCoins := [⟨1000, "addrX"⟩], code := "" }

def pfCbW : PatchDB := ⟨[("hcb", ⟨"hcb", [(0, ⟨1000, "addrX"⟩)], []⟩)], [], []⟩

theorem claim_C5_witness :
    1000 = (txCbW.getOutCoins.map Coins.getAmount).sum ∧
    (∃ u, pfCbW.getUtxo txCbW.hash = some u ∧ u.isEmpty = false) ∧
    Application.processTxInputs cfacW txCbW snapW (some PatchDB.empty) =
      (PatchDB.empty, .ok 0) := by
  have h := claim_C5 txCbW PatchDB.empty pfCbW 1000
  have hrun : Application.processPayments txCbW PatchDB.empty = .ok (pfCbW, 1000) := by rfl
  exact ⟨(h.1 hrun).1, (h.1 hrun).2.2 ⟨⟨1000, "addrX"⟩, by decide, by decide⟩,
    h.2 (by rfl) cfacW snapW (some PatchDB.empty)⟩

def instW : Application.ContractInstance :=
  { dataProps := [("_data", "10"), ("_contractAddr", "addr:deadbeef")],
    methods := [("getData", "A"), ("getAnother", "B")] }

def vmRunW : String → Except String Application.ContractInstance := fun _ => .ok instW

def txDeployW : Transaction :=
  { strHash := "deadbeef", inputs := [], claimProofs := [], outCoins := [],
    code := "classA" }

def patchDeployW : PatchDB :=
  ⟨[], [("addr:deadbeef", ⟨[("_data", "10"), ("_contractAddr", "addr:deadbeef")], "AB"⟩)],
    []⟩

/-- Claim C6, code-bug evidence: on a deployment whose sandbox instance exports
two methods with sources `"A"` and `"B"`, the code stores their bare
concatenation `"AB"` (the source reduces with `+` and no separator), while
the repository's own test expects the join with `CONTRACT_METHOD_SEPARATOR`;
`"A" ++ sep ++ "B"` equals `"AB"` only for the empty separator.  The data
snapshot part (enumerable own properties) is stored as claimed. -/
theorem claim_C6_bug :
    Application.createContract cfacW vmRunW "predef" txDeployW PatchDB.empty =
      .ok (patchDeployW, 0) ∧
    patchDeployW.getContract "addr:deadbeef" =
      some ⟨[("_data", "10"), ("_contractAddr", "addr:deadbeef")], "AB"⟩ ∧
    (∀ sep : String, ("A" ++ sep ++ "B" = "AB") ↔ sep = "") := by
  refine ⟨by rfl, by rfl, ?_⟩
  intro sep
  constructor
  · intro h
    have h2 := congrArg String.length h
    simp only [String.length_append] at h2
    have hA : ("A" : String).length = 1 := rfl
    have hB : ("B" : String).length = 1 := rfl
    have hAB : ("AB" : String).length = 2 := rfl
    have h3 : sep.length = 0 := by omega
    exact String.ext (List.length_eq_zero.mp h3)
  · intro h
    subst h
    rfl

/-- Claim C7, code-bug evidence: `createContract` as implemented returns the
bare number `0` — not a `(receipt, contract)` pair — and records no receipt
in the patch (on sandbox failure it even rethrows instead of emitting a
FAILED receipt), contradicting the repository's own tests; the
address-derivation part of the claim does hold: the contract is stored at
`Crypto.getAddress(tx.hash())`. -/
theorem claim_C7_bug :
    Application.createContract cfacW vmRunW "predef" txDeployW PatchDB.empty =
      .ok (patchDeployW, 0) ∧
    patchDeployW.receipts = [] ∧
    patchDeployW.getContract (cfacW.getAddress txDeployW.hash) =
      some ⟨[("_data", "10"), ("_contractAddr", "addr:deadbeef")], "AB"⟩ := by
  exact ⟨by rfl, by rfl, by rfl⟩

/-- Claim C8, code-bug evidence: `runContract` as implemented has an empty
body: every invocation — the repository test's unknown-method call
`subtract(10)` and the empty invocation on a contract without `_default`
included — returns `undefined` (modelled as `none`), so the contract data is
trivially untouched but no FAILED receipt and no `coins_used` of at least
`MIN_CONTRACT_FEE` is ever produced, contradicting the claim and the
repository's own tests (`src/tests/app.spec.js`, 'should throw (unknown
method)' and 'should throw (no default function)'). -/
theorem claim_C8_bug :
    (∀ (strCodeToRun contractCode : String) (patch : PatchDB)
      (funcToLoadNestedContracts : Address → Option Contract),
      Application.runContract strCodeToRun contractCode patch
        funcToLoadNestedContracts = none) ∧
    Application.runContract "subtract(10)" "add(a)" PatchDB.empty (fun _ => none) =
      none ∧
    Application.runContract "" "add(a)" PatchDB.empty (fun _ => none) = none :=
  ⟨fun _ _ _ _ => rfl, rfl, rfl⟩

/-- Claim C9: `getQuorum` returns a stored non-zero quorum unchanged; when the
stored quorum is absent or zero it returns `⌊n/2⌋ + 1` where `n` is the
number of delegates public keys, falling back to the plain public keys when
no delegates list is stored — and that value is a strict majority of `n`. -/
theorem claim_C9 (d : WitnessGroupDefinition.WitnessGroupData) :
    ((d.quorum = none ∨ d.quorum = some 0) →
      WitnessGroupDefinition.getQuorum d =
        (d.delegatesPublicKeys.getD d.publicKeys).length / 2 + 1 ∧
      (d.delegatesPublicKeys.getD d.publicKeys).length <
        2 * WitnessGroupDefinition.getQuorum d) ∧
    (∀ q : Nat, d.quorum = some q → q ≠ 0 →
      WitnessGroupDefinition.getQuorum d = q) := by
  constructor
  · intro hq
    have hq0 : d.quorum.getD 0 = 0 := by rcases hq with h | h <;> simp [h]
    unfold WitnessGroupDefinition.getQuorum
    rw [hq0]
    have hcond : ¬ ((0 : Nat) ≠ 0) := by simp
    rw [if_neg hcond]
    exact ⟨rfl, by omega⟩
  · intro q hq hq0
    unfold WitnessGroupDefinition.getQuorum
    rw [hq]
    simp [hq0]

def wgdW : WitnessGroupDefinition.WitnessGroupData :=
  { publicKeys := ["k1", "k2", "k3"], delegatesPublicKeys := none, quorum := none,
    groupId := 1 }

def wgdQW : WitnessGroupDefinition.WitnessGroupData :=
  { publicKeys := ["k1"], delegatesPublicKeys := none, quorum := some 5, groupId := 1 }

theorem claim_C9_witness :
    (WitnessGroupDefinition.getQuorum wgdW = 3 / 2 + 1 ∧
      3 < 2 * WitnessGroupDefinition.getQuorum wgdW) ∧
    WitnessGroupDefinition.getQuorum wgdQW = 5 :=
  ⟨(claim_C9 wgdW).1 (Or.inl rfl), (claim_C9 wgdQW).2 5 rfl (by decide)⟩

/-- Claim C10: `arrayEquals a b` is true exactly when `a` and `b` have the same
length and every element of `b` is an element of `a` (a membership test that
ignores multiplicity); in particular it is true on `[0, 0, 1]` and
`[0, 1, 1]`, which are not rearrangements of each other. -/
theorem claim_C10 :
    (∀ (α : Type) [_inst : DecidableEq α] (a b : List α),
      CilUtils.arrayEquals a b = true ↔ (a.length = b.length ∧ ∀ x ∈ b, x ∈ a)) ∧
    (CilUtils.arrayEquals [0, 0, 1] [0, 1, 1] = true ∧
      ¬ ([0, 0, 1] : List Nat).Perm [0, 1, 1]) := by
  constructor
  · intro α _inst a b
    unfold CilUtils.arrayEquals CilUtils.arrayIntersection
    rw [Bool.and_eq_true, beq_iff_eq, beq_iff_eq]
    constructor
    · rintro ⟨hlen, hint⟩
      refine ⟨hlen, ?_⟩
      rw [hlen] at hint
      intro x hx
      have hall := (filter_len_eq (fun e => decide (e ∈ a)) b).mp hint
      simpa using hall x hx
    · rintro ⟨hlen, hmem⟩
      refine ⟨hlen, ?_⟩
      have hall : ∀ x ∈ b, (fun e => decide (e ∈ a)) x = true := by
        intro x hx
        simpa using hmem x hx
      rw [(filter_len_eq _ b).mpr hall, hlen]
  · exact ⟨by decide, by decide⟩

theorem claim_C10_witness :
    CilUtils.arrayEquals [3, 3, 5] [3, 5, 5] = true :=
  (claim_C10.1 Nat [3, 3, 5] [3, 5, 5]).mpr ⟨rfl, by decide⟩
